import Mathlib

/-!
Shallow embedding of the suggestion aggregation and ranking engine of the
eco-route-ai repository: the three-source suggestion endpoint (gazetteer,
trip history, generative provider), its relevance scorer, deduplicator,
sorter and response formatter, the legacy static search endpoint, and the
fixed-window rate limiter.  External collaborators (the trip store and the
generative provider) are modelled by explicit outcome values; everything
else is translated from the TypeScript source.  All source strings are
ASCII, so JavaScript `toLowerCase`, `trim` and `split(/\s+/)` are modelled
at ASCII precision.
-/

/-! ### JavaScript string primitives (ASCII-precision models) -/

/-- ASCII lower-casing of one character, as JS `toLowerCase` acts on ASCII. -/
def lowerChar (c : Char) : Char :=
  if 65 ≤ c.toNat ∧ c.toNat ≤ 90 then Char.ofNat (c.toNat + 32) else c

/-- JS `String.prototype.toLowerCase` restricted to ASCII strings. -/
def jsToLower (s : String) : String := ⟨s.data.map lowerChar⟩

/-- ASCII whitespace recognised by JS `trim` and `\s` on the data at hand. -/
def isWsChar (c : Char) : Bool := c == ' ' || c == '\t' || c == '\n' || c == '\r'

/-- JS `String.prototype.trim` (ASCII whitespace). -/
def jsTrim (s : String) : String :=
  ⟨((s.data.dropWhile isWsChar).reverse.dropWhile isWsChar).reverse⟩

/-- JS `a.startsWith(p)`. -/
def jsStartsWith (s pat : String) : Bool := pat.data.isPrefixOf s.data

/-- Is `pat` a contiguous infix of `l`?  (JS `includes` on the char level.) -/
def listContainsSeg (l pat : List Char) : Bool :=
  match l with
  | [] => pat.isEmpty
  | _ :: t => pat.isPrefixOf l || listContainsSeg t pat

/-- JS `s.includes(pat)`. -/
def jsIncludes (s pat : String) : Bool := listContainsSeg s.data pat.data

/-- Accumulate maximal whitespace-free words (auxiliary for `jsSplitWs`). -/
def splitWsWords : List Char → List Char → List String
  | [], acc => if acc.isEmpty then [] else [⟨acc.reverse⟩]
  | c :: cs, acc =>
    if isWsChar c then
      if acc.isEmpty then splitWsWords cs [] else ⟨acc.reverse⟩ :: splitWsWords cs []
    else splitWsWords cs (c :: acc)

/-- JS `s.split(/\s+/)`: words of `s`, with one empty entry at the front
(resp. back) when `s` starts (resp. ends) with whitespace, and `[""]` for
the empty string. -/
def jsSplitWs (s : String) : List String :=
  match s.data with
  | [] => [""]
  | c :: cs =>
    (if isWsChar c then [""] else []) ++ splitWsWords (c :: cs) [] ++
      (if isWsChar ((c :: cs).getLast (List.cons_ne_nil c cs)) then [""] else [])

/-- JS truthiness of an optional string field: present and non-empty. -/
def jsTruthy (o : Option String) : Bool := o.getD "" != ""

/-- JS `a || b` on optional string fields. -/
def jsOrS (a b : Option String) : Option String := if jsTruthy a then a else b

/-- Case-insensitive code-point comparison standing in for
`localeCompare(...) <= 0`; no verified claim depends on this order. -/
def listCharLe : List Char → List Char → Bool
  | [], _ => true
  | _ :: _, [] => false
  | c :: cs, d :: ds => if c < d then true else if d < c then false else listCharLe cs ds

/-- `a.localeCompare(b) <= 0`, modelled case-insensitively on ASCII. -/
def localeLe (a b : String) : Bool := listCharLe (jsToLower a).data (jsToLower b).data

/-- Stable insertion of `a` after every element `b` of the sorted prefix
with `le b a`; together with `jsSortBy` this is the unique stable sort that
`Array.prototype.sort` performs for a consistent comparator. -/
def insertSorted (le : α → α → Bool) (a : α) : List α → List α
  | [] => [a]
  | b :: bs => if le b a then b :: insertSorted le a bs else a :: b :: bs

/-- Stable sort by the boolean relation `le a b` ("comparator(a,b) ≤ 0"). -/
def jsSortBy (le : α → α → Bool) (l : List α) : List α :=
  l.foldl (fun acc a => insertSorted le a acc) []

/-- Order-preserving deduplication by a string key (a JS `Set`-guarded
filter), auxiliary recursion carrying the set of seen keys. -/
def dedupByKeyAux (key : α → String) : List α → List String → List α
  | [], _ => []
  | a :: rest, seen =>
    if key a ∈ seen then dedupByKeyAux key rest seen
    else a :: dedupByKeyAux key rest (key a :: seen)

/-- Order-preserving deduplication by a string key. -/
def dedupByKey (key : α → String) (l : List α) : List α := dedupByKeyAux key l []

/-! ### `src/lib/us-locations.ts`: the static gazetteer -/

/-- `US_STATES` from `us-locations.ts`. -/
def US_STATES : List String :=
  ["Alabama", "Alaska", "Arizona", "Arkansas", "California", "Colorado",
   "Connecticut", "Delaware", "Florida", "Georgia", "Hawaii", "Idaho",
   "Illinois", "Indiana", "Iowa", "Kansas", "Kentucky", "Louisiana",
   "Maine", "Maryland", "Massachusetts", "Michigan", "Minnesota", "Mississippi",
   "Missouri", "Montana", "Nebraska", "Nevada", "New Hampshire", "New Jersey",
   "New Mexico", "New York", "North Carolina", "North Dakota", "Ohio", "Oklahoma",
   "Oregon", "Pennsylvania", "Rhode Island", "South Carolina", "South Dakota",
   "Tennessee", "Texas", "Utah", "Vermont", "Virginia", "Washington",
   "West Virginia", "Wisconsin", "Wyoming"]

/-- `MAJOR_CITIES` from `us-locations.ts`. -/
def MAJOR_CITIES : List String :=
  ["New York", "Los Angeles", "Chicago", "Houston", "Phoenix", "Philadelphia",
   "San Antonio", "San Diego", "Dallas", "San Jose", "Austin", "Jacksonville",
   "Fort Worth", "Columbus", "Charlotte", "San Francisco", "Indianapolis",
   "Seattle", "Denver", "Washington", "Boston", "El Paso", "Nashville",
   "Detroit", "Oklahoma City", "Portland", "Las Vegas", "Memphis", "Louisville",
   "Baltimore", "Milwaukee", "Albuquerque", "Tucson", "Fresno", "Sacramento",
   "Kansas City", "Mesa", "Atlanta", "Omaha", "Colorado Springs", "Raleigh",
   "Virginia Beach", "Miami", "Oakland", "Minneapolis", "Tulsa", "Cleveland",
   "Wichita", "Arlington", "Tampa", "New Orleans"]

/-- Location kind tag of a gazetteer entry. -/
inductive LocKind where
  | state
  | city
deriving DecidableEq, Repr

/-- `USLocation` from `us-locations.ts`. -/
structure USLocation where
  id : String
  name : String
  kind : LocKind
deriving DecidableEq, Repr

/-- `getAllUSLocations` from `us-locations.ts`: states then cities, with
index-derived ids. -/
def getAllUSLocations : List USLocation :=
  US_STATES.enum.map (fun p => ⟨"state-" ++ Nat.repr p.1, p.2, LocKind.state⟩) ++
    MAJOR_CITIES.enum.map (fun p => ⟨"city-" ++ Nat.repr p.1, p.2, LocKind.city⟩)

/-- The sort comparator of `filterUSLocations` as a "comparator ≤ 0"
relation: exact matches first, then prefix matches, then `localeCompare`. -/
def usLocLe (q : String) (a b : USLocation) : Bool :=
  let aL := jsToLower a.name
  let bL := jsToLower b.name
  if (aL == q) && !(bL == q) then true
  else if !(aL == q) && (bL == q) then false
  else if jsStartsWith aL q && !(jsStartsWith bL q) then true
  else if !(jsStartsWith aL q) && jsStartsWith bL q then false
  else localeLe a.name b.name

/-- `filterUSLocations` from `us-locations.ts`: case-insensitive substring
filter over the gazetteer, sorted (exact, then prefix, then alphabetical),
truncated to `limit`. -/
def filterUSLocations (query : String) (limit : Nat) : List USLocation :=
  let q := jsToLower (jsTrim query)
  if q.length < 1 then []
  else
    let filtered := getAllUSLocations.filter (fun loc => jsIncludes (jsToLower loc.name) q)
    (jsSortBy (usLocLe q) filtered).take limit

/-! ### Data model of the suggestion engine (`part_000`) -/

/-- Display/classification tag of a suggestion. -/
inductive SugType where
  | state
  | city
  | route
  | destination
deriving DecidableEq, Repr

/-- Provenance of a suggestion. -/
inductive SugSource where
  | static
  | database
  | ai
deriving DecidableEq, Repr

/-- The central `Suggestion` shape of the aggregator (the TypeScript objects
additionally carry a `type` tag not declared in the `Suggestion` type; the
AI mock fallback omits it, hence `Option SugType`). -/
structure Suggestion where
  id : String
  label : String
  origin : Option String
  destination : Option String
  type : Option SugType
  source : SugSource
  relevanceScore : Nat
  description : Option String
deriving DecidableEq, Repr

/-- A persisted trip row as returned by the storage collaborator. -/
structure Trip where
  id : String
  origin : String
  destination : String
deriving DecidableEq, Repr

/-- `calculateRelevanceScore` from `part_000`: tiered relevance of a
candidate's origin/destination against the query. -/
def calculateRelevanceScore (origin destination : Option String) (query : String) : Nat :=
  let q := jsTrim (jsToLower query)
  let o := jsToLower (origin.getD "")
  let d := jsToLower (destination.getD "")
  if (o == q) || (d == q) then 100
  else if jsStartsWith o q || jsStartsWith d q then 80
  else if jsIncludes o q || jsIncludes d q then 60
  else
    let originWords := jsSplitWs o
    let destWords := jsSplitWs d
    let queryWords := jsSplitWs q
    if queryWords.any (fun qw =>
        originWords.any (fun ow => jsStartsWith ow qw) ||
        destWords.any (fun dw => jsStartsWith dw qw)) then 40
    else 20

/-- `normalizeRoute` from `part_000`: the deduplication identity key. -/
def normalizeRoute (origin destination : Option String) : String :=
  let o := jsTrim (jsToLower (origin.getD ""))
  let d := jsTrim (jsToLower (destination.getD ""))
  if o != "" && d != "" then o ++ "→" ++ d
  else if d != "" then d
  else o

/-- Identity key of a suggestion, as computed inside `deduplicateSuggestions`. -/
def dedupKey (s : Suggestion) : String := normalizeRoute s.origin s.destination

/-- The `sourcePriority` table of `deduplicateSuggestions`. -/
def sourcePriority : SugSource → Nat
  | SugSource.static => 3
  | SugSource.database => 2
  | SugSource.ai => 1

/-- Does `s` strictly beat the `existing` entry in `deduplicateSuggestions`
(strictly higher source priority, or equal priority and strictly higher
relevance score)? -/
def betterSug (s existing : Suggestion) : Bool :=
  decide (sourcePriority existing.source < sourcePriority s.source) ||
    (sourcePriority s.source == sourcePriority existing.source &&
      decide (existing.relevanceScore < s.relevanceScore))

/-- JS `Map.set` on an insertion-ordered association list: overwrite in
place when the key exists, append otherwise (the append case is unused by
`dedupeStep`, which only calls this after a successful lookup). -/
def seenSet : List (String × Suggestion) → String → Suggestion → List (String × Suggestion)
  | [], k, v => [(k, v)]
  | (k', v') :: rest, k, v =>
    if k' = k then (k, v) :: rest else (k', v') :: seenSet rest k v

/-- One iteration of the `deduplicateSuggestions` loop over the `seen` map. -/
def dedupeStep (seen : List (String × Suggestion)) (sug : Suggestion) :
    List (String × Suggestion) :=
  let key := dedupKey sug
  match List.lookup key seen with
  | none => seen ++ [(key, sug)]
  | some existing => if betterSug sug existing then seenSet seen key sug else seen

/-- `deduplicateSuggestions` from `part_000`: group by identity key, keep
the winner per key, return winners in first-seen key order (JS `Map`
iteration order). -/
def deduplicateSuggestions (suggestions : List Suggestion) : List Suggestion :=
  (suggestions.foldl dedupeStep []).map Prod.snd

/-- `getDatabaseSuggestions` from `part_000`; the storage collaborator's
outcome (the prisma query inside the `try`) is passed explicitly, and a
storage failure degrades to an empty list. -/
def getDatabaseSuggestions (query : String) (store : Except Unit (List Trip)) :
    List Suggestion :=
  let q := jsTrim query
  if q.length < 2 then []
  else
    match store with
    | Except.error _ => []
    | Except.ok trips =>
      let uniqueTrips :=
        dedupByKey (fun t => jsToLower t.origin ++ "→" ++ jsToLower t.destination) trips
      (uniqueTrips.take 10).map fun t =>
        ⟨"db:" ++ t.id, t.origin ++ " → " ++ t.destination,
         some t.origin, some t.destination, some SugType.route, SugSource.database,
         calculateRelevanceScore (some t.origin) (some t.destination) q, none⟩

/-! ### The generative suggestion adapter (`getAISuggestions`, `part_000`) -/

/-- A loosely-shaped item of the provider's JSON response. -/
structure AIItem where
  type? : Option String
  name? : Option String
  destination? : Option String
  origin? : Option String
  mode? : Option String
  description? : Option String
deriving DecidableEq, Repr

/-- Failure modes of the generative provider call (all caught alike). -/
inductive AIErr where
  | auth
  | rateLimited
  | timeout
  | other
deriving DecidableEq, Repr

/-- Outcome of the generative provider interaction: no credential
configured, a thrown provider error, an unparsable body, a parsed body
with no recognised array, or one of the three recognised array shapes. -/
inductive AIOutcome where
  | noKey
  | providerError (e : AIErr)
  | badJson
  | noArray
  | okSuggestions (items : List AIItem)
  | okRoutes (items : List AIItem)
  | okDestinations (items : List AIItem)
deriving DecidableEq, Repr

/-- Conversion of a legacy `routes` array entry into the canonical item
shape (`part_000` lines 317–324). -/
def routeShapeItem (r : AIItem) : AIItem :=
  ⟨some "route",
   (if jsTruthy r.origin? && jsTruthy r.destination? then
      some (r.origin?.getD "" ++ " → " ++ r.destination?.getD "")
    else jsOrS r.destination? r.origin?),
   r.destination?, r.origin?, r.mode?, r.description?⟩

/-- Conversion of a legacy `destinations` array entry into the canonical
item shape (`part_000` lines 327–332). -/
def destShapeItem (d : AIItem) : AIItem :=
  ⟨some "destination", jsOrS d.name? d.destination?, jsOrS d.destination? d.name?,
   none, none, d.description?⟩

/-- The common converter of parsed items into suggestions (`part_000`
lines 339–368); the `Date.now()`/`Math.random()` id suffixes are abstracted
to the index since no behaviour reads them. -/
def aiConvert (query : String) (items : List AIItem) : List Suggestion :=
  (items.take 8).enum.map fun p =>
    let idx := p.1
    let s := p.2
    let isRoute := (s.type? == some "route") ||
      (jsTruthy s.origin? && jsTruthy s.destination? &&
        (s.origin?.getD "" != s.destination?.getD ""))
    let destination := (jsOrS s.destination? s.name?).getD ""
    let origin := s.origin?.getD ""
    let mode := s.mode?.getD ""
    let descr :=
      some ((jsOrS s.description?
        (some ("Eco-friendly " ++ (if isRoute then "route" else "destination")))).getD "")
    if isRoute && origin != "" && destination != "" then
      ⟨"ai:" ++ Nat.repr idx,
       (if mode != "" then origin ++ " → " ++ destination ++ " (" ++ mode ++ ")"
        else origin ++ " → " ++ destination),
       (if origin == "" then none else some origin),
       some destination, some SugType.route, SugSource.ai,
       calculateRelevanceScore (some origin) (some destination) query, descr⟩
    else
      ⟨"ai:" ++ Nat.repr idx,
       (jsOrS s.name? (some destination)).getD "",
       (if origin == "" then none else some origin),
       some destination, some SugType.destination, SugSource.ai,
       calculateRelevanceScore (some origin) (some destination) query, descr⟩

/-- `getAISuggestions` from `part_000`: mock pair when no credential is
configured; every provider failure or malformed body degrades to `[]`;
otherwise the parsed array (canonical or legacy shape) is converted. -/
def getAISuggestions (query : String) (provider : AIOutcome) : List Suggestion :=
  match provider with
  | AIOutcome.noKey =>
    [⟨"ai:1", query ++ " → Boston (train)", some query, some "Boston",
      none, SugSource.ai, 30, none⟩,
     ⟨"ai:2", query ++ " → New York (bus)", some query, some "New York",
      none, SugSource.ai, 30, none⟩]
  | AIOutcome.providerError _ => []
  | AIOutcome.badJson => []
  | AIOutcome.noArray => []
  | AIOutcome.okSuggestions items => aiConvert query items
  | AIOutcome.okRoutes items => aiConvert query (items.map routeShapeItem)
  | AIOutcome.okDestinations items => aiConvert query (items.map destShapeItem)

/-- `getStaticSuggestions` from `part_000`: gazetteer matches with the
generic score boosted by 10. -/
def getStaticSuggestions (query : String) : List Suggestion :=
  let q := jsTrim query
  if q.length < 1 then []
  else
    (filterUSLocations q 10).map fun location =>
      ⟨"static-" ++ location.id, location.name, some location.name, some location.name,
       some (match location.kind with
             | LocKind.state => SugType.state
             | LocKind.city => SugType.city),
       SugSource.static,
       calculateRelevanceScore (some location.name) (some location.name) q + 10,
       none⟩

/-! ### Final formatting and the two request handlers -/

/-- The externally visible suggestion shape. -/
structure Formatted where
  id : String
  label : String
  origin : Option String
  destination : Option String
  type : SugType
  description : Option String
deriving DecidableEq, Repr

/-- The final-response mapper of `part_000`'s `GET` (lines 470–490):
source-assigned `type` wins; otherwise `route` is inferred exactly when
origin and destination are both truthy and differ as raw strings. -/
def formatSuggestion (s : Suggestion) : Formatted :=
  let isRoute := jsTruthy s.origin && jsTruthy s.destination &&
    (s.origin.getD "" != s.destination.getD "")
  ⟨s.id, s.label,
   (if jsTruthy s.origin then s.origin else none),
   (if jsTruthy s.destination then s.destination else none),
   (match s.type with
    | some t => t
    | none => if isRoute then SugType.route else SugType.destination),
   (if jsTruthy s.description then s.description else none)⟩

/-- The rate-limited-path mapper of `part_000`'s `GET` (lines 425–431). -/
def formatRateLimited (s : Suggestion) : Formatted :=
  ⟨s.id, s.label,
   (if jsTruthy s.origin then s.origin else none),
   (if jsTruthy s.destination then s.destination else none),
   s.type.getD SugType.destination,
   none⟩

/-- The comparator of the final sort (lines 454–466) as a
"comparator ≤ 0" relation: score descending, then source priority. -/
def suggLe (a b : Suggestion) : Bool :=
  if a.relevanceScore != b.relevanceScore then decide (b.relevanceScore < a.relevanceScore)
  else if sourcePriority a.source != sourcePriority b.source then
    decide (sourcePriority b.source < sourcePriority a.source)
  else true

/-- A JSON response of either endpoint: HTTP status, `suggestions` array,
`rateLimited` flag (absent fields modelled by their JS defaults), and
`error` message when present. -/
structure SearchResponse where
  status : Nat
  suggestions : List Formatted
  rateLimited : Bool
  error : Option String
deriving DecidableEq, Repr

/-- `GET` of `part_000` (the three-source suggestions endpoint) as a pure
function of the query and of both collaborators' outcomes.  The body has no
throw point once both fallible sources are modelled as caught outcomes, so
the surrounding `try/catch` is the identity on these paths. -/
def suggestGET (rawQuery : String) (rlAdmit : Bool) (store : Except Unit (List Trip))
    (provider : AIOutcome) : SearchResponse :=
  let q := jsTrim rawQuery
  if q.length < 1 then ⟨200, [], false, none⟩
  else
    let shouldFetchAI := decide (2 ≤ q.length)
    if shouldFetchAI && !rlAdmit then
      ⟨200, (getStaticSuggestions q).map formatRateLimited, true, none⟩
    else
      let staticSuggestions := getStaticSuggestions q
      let dbSuggestions := if shouldFetchAI then getDatabaseSuggestions q store else []
      let aiSuggestions := if shouldFetchAI then getAISuggestions q provider else []
      let allSuggestions := staticSuggestions ++ dbSuggestions ++ aiSuggestions
      let deduplicated := deduplicateSuggestions allSuggestions
      let sorted := jsSortBy suggLe deduplicated
      ⟨200, sorted.map formatSuggestion, false, none⟩

/-- `name.toLowerCase().replace(/\s+/g, "-")` from `route.ts`. -/
def slugify (name : String) : String :=
  String.intercalate "-" (splitWsWords (jsToLower name).data [])

/-- The static-first sort of `route.ts` as a "comparator ≤ 0" relation. -/
def staticFirstLe (a b : Formatted) : Bool :=
  if jsStartsWith a.id "static-" && !(jsStartsWith b.id "static-") then true
  else if !(jsStartsWith a.id "static-") && jsStartsWith b.id "static-" then false
  else true

/-- `GET` of `src/app/api/search/route.ts` (the legacy static-only search
endpoint): gazetteer matches only, deduplicated by label, sorted
static-first, truncated to 10; a rate-limit denial is answered with 429. -/
def searchRouteGET (rawQuery : String) (rlAdmit : Bool) : SearchResponse :=
  let q := jsTrim rawQuery
  if q.length < 2 then ⟨200, [], false, none⟩
  else if !rlAdmit then
    ⟨429, [], false, some "Rate limit exceeded. Please try again later."⟩
  else
    let staticLocations := filterUSLocations q 5
    let suggestions := staticLocations.map (fun loc =>
      (⟨"static-" ++ slugify loc.name, loc.name, none, some loc.name,
        SugType.destination, some "Popular destination"⟩ : Formatted))
    let unique := dedupByKey (fun s => jsToLower s.label) suggestions
    let sorted := jsSortBy staticFirstLe unique
    ⟨200, sorted.take 10, false, none⟩

/-! ### The fixed-window rate limiter -/

/-- One entry of the in-memory rate-limit map. -/
structure RLRec where
  count : Nat
  resetTime : Nat
deriving DecidableEq, Repr

/-- `RATE_LIMIT_WINDOW` (both endpoints): one minute in milliseconds. -/
def RATE_LIMIT_WINDOW : Nat := 60000

/-- `RATE_LIMIT_MAX_REQUESTS` of `part_000`. -/
def RATE_LIMIT_MAX_REQUESTS : Nat := 10

/-- `RATE_LIMIT_MAX_REQUESTS` of `route.ts`. -/
def SEARCH_RATE_LIMIT_MAX_REQUESTS : Nat := 15

/-- `checkRateLimit` (identical logic in `part_000` and `route.ts`, quota
and window abstracted as parameters): decision plus the client key's map
entry after the call.  `record` is the entry stored for the client key
before the call. -/
def checkRateLimit (maxReq window now : Nat) (record : Option RLRec) : Bool × RLRec :=
  match record with
  | none => (true, ⟨1, now + window⟩)
  | some r =>
    if r.resetTime < now then (true, ⟨1, now + window⟩)
    else if maxReq ≤ r.count then (false, r)
    else (true, ⟨r.count + 1, r.resetTime⟩)

/-- Run the rate limiter over a sequence of arrival times of one client
key, returning the decisions and the final stored entry. -/
def runRateLimit (maxReq window : Nat) : Option RLRec → List Nat → List Bool × Option RLRec
  | st, [] => ([], st)
  | st, t :: ts =>
    let res := checkRateLimit maxReq window t st
    let rest := runRateLimit maxReq window (some res.2) ts
    (res.1 :: rest.1, rest.2)

/-! ### The per-group winner of the deduplicator -/

/-- Keep the later candidate only when it strictly beats the earlier one. -/
def pickWin (e s : Suggestion) : Suggestion := if betterSug s e then s else e

/-- One step of the per-group winner fold. -/
def stepWin (acc : Option Suggestion) (s : Suggestion) : Option Suggestion :=
  match acc with
  | none => some s
  | some e => some (pickWin e s)

/-- Winner of a group of same-key candidates, continuing from `acc`. -/
def groupWinner (acc : Option Suggestion) (g : List Suggestion) : Option Suggestion :=
  g.foldl stepWin acc

/-- Spec-side selection rule of §4.5: scan the group in arrival order and
keep the candidate that is maximal for "higher source priority, then
strictly higher relevance score", first-seen winning all remaining ties. -/
def specWinner (g : List Suggestion) : Option Suggestion := groupWinner none g

/-- All keys stored in the seen map are the identity keys of their values. -/
def KeysConsistent (seen : List (String × Suggestion)) : Prop :=
  ∀ p ∈ seen, p.1 = dedupKey p.2

/-- The static suggestion for the exact-match query `"boston"`. -/
def bostonStaticSug : Suggestion :=
  ⟨"static-city-20", "Boston", some "Boston", some "Boston", some SugType.city,
   SugSource.static, 110, none⟩

/-- A suggestion carrying only a label, as the AI path can produce in
principle (origin and destination both absent). -/
def labelOnlySug : Suggestion := ⟨"x:1", "Boston", none, none, none, SugSource.ai, 30, none⟩

/-! ### Bridging lemmas between the boolean string tests and propositions -/

/-- `jsStartsWith` decides list-level prefixhood. -/
theorem jsStartsWith_iff (s pat : String) : jsStartsWith s pat = true ↔ pat.data <+: s.data := by
  simp [jsStartsWith, List.isPrefixOf_iff_prefix]

/-- `listContainsSeg` decides list-level infixhood. -/
theorem listContainsSeg_iff (l pat : List Char) : listContainsSeg l pat = true ↔ pat <:+: l := by
  induction l with
  | nil => simp [listContainsSeg, List.isEmpty_iff, List.infix_nil]
  | cons c t ih =>
    rw [listContainsSeg, List.infix_cons_iff]
    simp [ List.isPrefixOf_iff_prefix, ih]

/-- `jsIncludes` decides substring containment. -/
theorem jsIncludes_iff (s pat : String) : jsIncludes s pat = true ↔ pat.data <:+: s.data := by
  simp [jsIncludes, listContainsSeg_iff]

/-- The relevance scorer only produces values of at most 100. -/
theorem calcScore_le (origin destination : Option String) (query : String) :
    calculateRelevanceScore origin destination query ≤ 100 := by
  simp only [calculateRelevanceScore]
  split_ifs <;> omega

/-- The relevance scorer only produces values of at least 20. -/
theorem calcScore_ge (origin destination : Option String) (query : String) :
    20 ≤ calculateRelevanceScore origin destination query := by
  simp only [calculateRelevanceScore]
  split_ifs <;> omega

/-- C3: the relevance scorer realises exactly the tier policy of the spec,
checked top-down with the first matching tier short-circuiting: 100 for an
equality match of the normalized query against origin or destination, else
80 for a prefix match, else 60 for a substring match, else 40 when some
whitespace-delimited query word is a prefix of some origin/destination
word, else 20.  Purity and determinism are intrinsic: the scorer is a
function of `(origin, destination, query)` alone. -/
theorem C3_scorer_tiers (origin destination : Option String) (query : String) :
    calculateRelevanceScore origin destination query =
      (let q := jsTrim (jsToLower query)
       let o := jsToLower (origin.getD "")
       let d := jsToLower (destination.getD "")
       if o = q ∨ d = q then 100
       else if q.data <+: o.data ∨ q.data <+: d.data then 80
       else if q.data <:+: o.data ∨ q.data <:+: d.data then 60
       else if ∃ qw ∈ jsSplitWs q,
           (∃ ow ∈ jsSplitWs o, qw.data <+: ow.data) ∨
           (∃ dw ∈ jsSplitWs d, qw.data <+: dw.data) then 40
       else 20) := by
  simp only [calculateRelevanceScore, Bool.or_eq_true, beq_iff_eq, jsStartsWith_iff,
    jsIncludes_iff, List.any_eq_true]


/-- C2 counterexample: the gazetteer source feeds the aggregator a
suggestion whose relevanceScore is 110 > 100 (exact match scores 100, and
the static boost adds 10), so `relevanceScore ∈ [0, 100]` fails for static
suggestions. -/
theorem C2_counterexample :
    ∃ s ∈ getStaticSuggestions "boston", 100 < s.relevanceScore := by decide

/-- C2 amended: database and AI suggestions carry scores in [20, 100];
static (gazetteer) suggestions carry the generic score boosted by the
constant 10, hence lie in [30, 110] and may exceed 100. -/
theorem C2_amended (q : String) (store : Except Unit (List Trip)) (provider : AIOutcome)
    (s : Suggestion) :
    (s ∈ getDatabaseSuggestions q store → 20 ≤ s.relevanceScore ∧ s.relevanceScore ≤ 100) ∧
    (s ∈ getAISuggestions q provider → 20 ≤ s.relevanceScore ∧ s.relevanceScore ≤ 100) ∧
    (s ∈ getStaticSuggestions q →
      30 ≤ s.relevanceScore ∧ s.relevanceScore ≤ 110 ∧
      s.relevanceScore =
        calculateRelevanceScore s.origin s.destination (jsTrim q) + 10) := by
  refine ⟨?_, ?_, ?_⟩
  · intro hs
    simp only [getDatabaseSuggestions] at hs
    split at hs
    · simp at hs
    · split at hs
      · simp at hs
      · obtain ⟨t, ht, rfl⟩ := List.mem_map.mp hs
        refine ⟨calcScore_ge _ _ _, calcScore_le _ _ _⟩
  · intro hs
    cases provider with
    | noKey =>
      simp only [getAISuggestions, List.mem_cons, List.not_mem_nil, or_false] at hs
      rcases hs with rfl | rfl <;> simp
    | providerError e => simp [getAISuggestions] at hs
    | badJson => simp [getAISuggestions] at hs
    | noArray => simp [getAISuggestions] at hs
    | okSuggestions items =>
      simp only [getAISuggestions, aiConvert] at hs
      obtain ⟨p, hp, rfl⟩ := List.mem_map.mp hs
      split <;> exact ⟨calcScore_ge _ _ _, calcScore_le _ _ _⟩
    | okRoutes items =>
      simp only [getAISuggestions, aiConvert] at hs
      obtain ⟨p, hp, rfl⟩ := List.mem_map.mp hs
      split <;> exact ⟨calcScore_ge _ _ _, calcScore_le _ _ _⟩
    | okDestinations items =>
      simp only [getAISuggestions, aiConvert] at hs
      obtain ⟨p, hp, rfl⟩ := List.mem_map.mp hs
      split <;> exact ⟨calcScore_ge _ _ _, calcScore_le _ _ _⟩
  · intro hs
    simp only [getStaticSuggestions] at hs
    split at hs
    · simp at hs
    · obtain ⟨loc, hloc, rfl⟩ := List.mem_map.mp hs
      have h1 := calcScore_ge (some loc.name) (some loc.name) (jsTrim q)
      have h2 := calcScore_le (some loc.name) (some loc.name) (jsTrim q)
      exact ⟨by dsimp only; omega, by dsimp only; omega, rfl⟩

/-- Witness for C2 amended, at the concrete static suggestion for
`"boston"`. -/
theorem C2_amended_witness :
    30 ≤ bostonStaticSug.relevanceScore ∧ bostonStaticSug.relevanceScore ≤ 110 ∧
    bostonStaticSug.relevanceScore =
      calculateRelevanceScore bostonStaticSug.origin bostonStaticSug.destination
        (jsTrim "boston") + 10 :=
  (C2_amended "boston" (Except.ok []) AIOutcome.noKey bostonStaticSug).2.2 (by decide)


/-- C5 counterexample: for a suggestion with neither origin nor
destination, the deduplication key is the empty string — `normalizeRoute`
never consults the label, so the claimed fallback to the lower-cased label
("boston") does not happen. -/
theorem C5_counterexample :
    dedupKey labelOnlySug = "" ∧ jsToLower labelOnlySug.label = "boston" ∧
      ("" : String) ≠ "boston" := by decide

/-- C5 amended: the identity key is the lower-cased, trimmed
`"<origin>→<destination>"` when both normalized fields are non-empty, and
otherwise the (possibly empty) normalized destination-or-origin; when
neither field is present the key is `""` — the label is never used. -/
theorem C5_amended (origin destination : Option String) :
    (jsTrim (jsToLower (origin.getD "")) ≠ "" → jsTrim (jsToLower (destination.getD "")) ≠ "" →
      normalizeRoute origin destination =
        jsTrim (jsToLower (origin.getD "")) ++ "→" ++ jsTrim (jsToLower (destination.getD ""))) ∧
    (jsTrim (jsToLower (origin.getD "")) = "" →
      normalizeRoute origin destination = jsTrim (jsToLower (destination.getD ""))) ∧
    (jsTrim (jsToLower (destination.getD "")) = "" →
      normalizeRoute origin destination = jsTrim (jsToLower (origin.getD ""))) := by
  refine ⟨?_, ?_, ?_⟩
  · intro h1 h2
    simp [normalizeRoute, h1, h2]
  · intro h1
    by_cases h2 : jsTrim (jsToLower (destination.getD "")) = ""
    · simp [normalizeRoute, h1, h2]
    · simp [normalizeRoute, h1, h2]
  · intro h2
    by_cases h1 : jsTrim (jsToLower (origin.getD "")) = ""
    · simp [normalizeRoute, h1, h2]
    · simp [normalizeRoute, h1, h2]

/-- Witness for C5 amended at a concrete two-sided route. -/
theorem C5_amended_witness :
    normalizeRoute (some "New York") (some "Boston") =
      jsTrim (jsToLower ((some "New York").getD "")) ++ "→" ++
        jsTrim (jsToLower ((some "Boston").getD "")) :=
  (C5_amended (some "New York") (some "Boston")).1 (by decide) (by decide)

/-- C10: a request arriving exactly at the stored reset timestamp is still
handled inside the old window — denied without change when the counter has
reached the quota, otherwise counted against the old counter with the old
reset time; a fresh window (count 1, reset = arrival + 60000) starts only
when the arrival time strictly exceeds the stored reset timestamp. -/
theorem C10_boundary (maxReq : Nat) (r : RLRec) (now : Nat) :
    (checkRateLimit maxReq RATE_LIMIT_WINDOW r.resetTime (some r) =
      if maxReq ≤ r.count then (false, r) else (true, ⟨r.count + 1, r.resetTime⟩)) ∧
    (r.resetTime < now →
      checkRateLimit maxReq RATE_LIMIT_WINDOW now (some r) =
        (true, ⟨1, now + RATE_LIMIT_WINDOW⟩)) := by
  constructor
  · simp [checkRateLimit]
  · intro h
    simp [checkRateLimit, h]

/-- Witness for C10 at a full counter on the boundary and one instant past it. -/
theorem C10_boundary_witness :
    (checkRateLimit 10 RATE_LIMIT_WINDOW 5000 (some ⟨10, 5000⟩) = (false, ⟨10, 5000⟩)) ∧
    (checkRateLimit 10 RATE_LIMIT_WINDOW 5001 (some ⟨10, 5000⟩) =
      (true, ⟨1, 5001 + RATE_LIMIT_WINDOW⟩)) := by
  have h := C10_boundary 10 ⟨10, 5000⟩ 5001
  exact ⟨by simpa using h.1, h.2 (by decide)⟩

/-- Processing arrivals that stay inside the current window while the
counter stays under quota: all admitted, counter incremented per request,
reset time unchanged. -/
theorem runRateLimit_within (maxReq window R : Nat) (ts : List Nat) :
    ∀ c : Nat, (∀ t ∈ ts, t ≤ R) → c + ts.length ≤ maxReq →
      runRateLimit maxReq window (some ⟨c, R⟩) ts =
        (List.replicate ts.length true, some ⟨c + ts.length, R⟩) := by
  induction ts with
  | nil => intro c _ _; simp [runRateLimit]
  | cons t ts ih =>
    intro c hin hq
    have hle : t ≤ R := hin t (List.mem_cons_self t ts)
    have h1 : ¬ R < t := by omega
    have h2 : ¬ maxReq ≤ c := by
      have := ts.length
      simp only [List.length_cons] at hq
      omega
    have hrec := ih (c + 1) (fun u hu => hin u (List.mem_cons_of_mem t hu))
      (by simp only [List.length_cons] at hq; omega)
    simp only [runRateLimit, checkRateLimit, if_neg h1, if_neg h2, hrec,
      List.length_cons, List.replicate_succ]
    have h3 : c + 1 + ts.length = c + (ts.length + 1) := by omega
    rw [h3]

/-- C8: starting from no record, `N` requests inside one window are all
admitted and leave the counter at `N = quota`; the `(N+1)`-th request in
the same window is denied without changing the record; the first request
strictly after the window end is admitted and resets the record to count 1
with a fresh window. -/
theorem C8_quota (maxReq window t0 : Nat) (ts : List Nat) (tb ta : Nat)
    (hN : 1 ≤ maxReq) (hlen : ts.length = maxReq - 1)
    (hin : ∀ t ∈ ts, t ≤ t0 + window) (hb : tb ≤ t0 + window) (ha : t0 + window < ta) :
    (runRateLimit maxReq window none (t0 :: ts)).1 = List.replicate maxReq true ∧
    (runRateLimit maxReq window none (t0 :: ts)).2 = some ⟨maxReq, t0 + window⟩ ∧
    checkRateLimit maxReq window tb (some ⟨maxReq, t0 + window⟩) =
      (false, ⟨maxReq, t0 + window⟩) ∧
    checkRateLimit maxReq window ta (some ⟨maxReq, t0 + window⟩) =
      (true, ⟨1, ta + window⟩) := by
  have hrun := runRateLimit_within maxReq window (t0 + window) ts 1 hin (by omega)
  have hfirst : checkRateLimit maxReq window t0 none = (true, ⟨1, t0 + window⟩) := rfl
  have hcount : 1 + ts.length = maxReq := by omega
  refine ⟨?_, ?_, ?_, ?_⟩
  · simp only [runRateLimit, hfirst, hrun]
    have h3 : maxReq = ts.length + 1 := by omega
    rw [h3, List.replicate_succ]
  · simp only [runRateLimit, hfirst, hrun]
    rw [hcount]
  · have h1 : ¬ t0 + window < tb := by omega
    simp [checkRateLimit, h1]
  · simp [checkRateLimit, ha]

/-- Witness for C8 at quota 2, window 60000, arrivals 0, 10, then a denied
arrival at 20 and an admitted one at 70000. -/
theorem C8_quota_witness :
    (runRateLimit 2 60000 none [0, 10]).1 = List.replicate 2 true ∧
    (runRateLimit 2 60000 none [0, 10]).2 = some ⟨2, 0 + 60000⟩ ∧
    checkRateLimit 2 60000 20 (some ⟨2, 0 + 60000⟩) = (false, ⟨2, 0 + 60000⟩) ∧
    checkRateLimit 2 60000 70000 (some ⟨2, 0 + 60000⟩) = (true, ⟨1, 70000 + 60000⟩) :=
  C8_quota 2 60000 0 [10] 20 70000 (by decide) rfl (by decide) (by decide) (by decide)

/-- C9 counterexample: a persisted trip from Springfield to Springfield
reaches the final response as a suggestion with equal origin and
destination yet `type = route` — the source-assigned `route` tag overrides
the origin/destination-based classification, so "equal implies
destination" and "route implies differing" both fail. -/
theorem C9_counterexample :
    ∃ f ∈ (suggestGET "springfield" true
        (Except.ok [⟨"1", "Springfield", "Springfield"⟩])
        (AIOutcome.providerError AIErr.other)).suggestions,
      f.origin = some "Springfield" ∧ f.destination = some "Springfield" ∧
        f.type = SugType.route := by decide

/-- C9 amended: the final formatter only infers a classification when the
source assigned none (the AI mock fallback); a source-assigned type — in
particular `route` on every database suggestion — passes through
unchanged.  A formatted suggestion is a `route` iff its source tagged it
`route`, or it is untagged with both origin and destination truthy and
differing as raw (case-sensitive, untrimmed) strings. -/
theorem C9_amended (s : Suggestion) :
    (formatSuggestion s).type = SugType.route ↔
      s.type = some SugType.route ∨
      (s.type = none ∧ jsTruthy s.origin = true ∧ jsTruthy s.destination = true ∧
        s.origin.getD "" ≠ s.destination.getD "") := by
  cases h : s.type with
  | some t =>
    cases t <;> simp [formatSuggestion, h]
  | none =>
    by_cases h1 : jsTruthy s.origin = true
    · by_cases h2 : jsTruthy s.destination = true
      · by_cases h3 : s.origin.getD "" = s.destination.getD ""
        · simp [formatSuggestion, h, h1, h2, h3]
        · simp [formatSuggestion, h, h1, h2, h3]
      · simp [formatSuggestion, h, h1, h2]
    · simp [formatSuggestion, h, h1]

/-- C6: degradable failures never fail the request.  A storage failure and
every generative-provider failure (thrown auth/rate-limit/timeout error,
unparsable body, or a body with no recognised array) each reduce their own
source's contribution to `[]`; the handler's response always has HTTP
status 200 and no error field; and a rate-limit denial degrades the
request to the gazetteer-only list (flagged `rateLimited`), still a
success response. -/
theorem C6_degradation (q : String) (rlAdmit : Bool) (store : Except Unit (List Trip))
    (provider : AIOutcome) (e : AIErr) (hq : 2 ≤ (jsTrim q).length) :
    (suggestGET q rlAdmit store provider).status = 200 ∧
    (suggestGET q rlAdmit store provider).error = none ∧
    getDatabaseSuggestions q (Except.error ()) = [] ∧
    getAISuggestions q (AIOutcome.providerError e) = [] ∧
    getAISuggestions q AIOutcome.badJson = [] ∧
    getAISuggestions q AIOutcome.noArray = [] ∧
    (suggestGET q false store provider).suggestions =
      (getStaticSuggestions (jsTrim q)).map formatRateLimited ∧
    (suggestGET q false store provider).rateLimited = true ∧
    (suggestGET q false store provider).status = 200 := by
  have h1 : ¬ (jsTrim q).length < 1 := by omega
  have h2 : (decide (2 ≤ (jsTrim q).length) && !false) = true := by simp [hq]
  have hrl : suggestGET q false store provider =
      ⟨200, (getStaticSuggestions (jsTrim q)).map formatRateLimited, true, none⟩ := by
    simp only [suggestGET, if_neg h1, h2, if_pos]
  refine ⟨?_, ?_, ?_, rfl, rfl, rfl, ?_, ?_, ?_⟩
  · simp only [suggestGET]
    split_ifs <;> rfl
  · simp only [suggestGET]
    split_ifs <;> rfl
  · simp only [getDatabaseSuggestions]
    split_ifs <;> rfl
  · rw [hrl]
  · rw [hrl]
  · rw [hrl]

/-- Witness for C6 at a concrete query with both fallible sources failing. -/
theorem C6_degradation_witness :
    (suggestGET "boston" true (Except.error ()) AIOutcome.badJson).status = 200 ∧
    (suggestGET "boston" true (Except.error ()) AIOutcome.badJson).error = none ∧
    getDatabaseSuggestions "boston" (Except.error ()) = [] ∧
    getAISuggestions "boston" (AIOutcome.providerError AIErr.auth) = [] ∧
    getAISuggestions "boston" AIOutcome.badJson = [] ∧
    getAISuggestions "boston" AIOutcome.noArray = [] ∧
    (suggestGET "boston" false (Except.error ()) AIOutcome.badJson).suggestions =
      (getStaticSuggestions (jsTrim "boston")).map formatRateLimited ∧
    (suggestGET "boston" false (Except.error ()) AIOutcome.badJson).rateLimited = true ∧
    (suggestGET "boston" false (Except.error ()) AIOutcome.badJson).status = 200 :=
  C6_degradation "boston" true (Except.error ()) AIOutcome.badJson AIErr.auth (by decide)

/-! ### Length accounting for the aggregation pipeline -/

/-- Stable insertion grows a list by exactly one element. -/
theorem length_insertSorted (le : α → α → Bool) (a : α) (l : List α) :
    (insertSorted le a l).length = l.length + 1 := by
  induction l with
  | nil => rfl
  | cons b bs ih =>
    simp only [insertSorted]
    split
    · simp [ih]
    · rfl

/-- The stable sort preserves length. -/
theorem length_jsSortBy (le : α → α → Bool) (l : List α) :
    (jsSortBy le l).length = l.length := by
  suffices h : ∀ acc : List α,
      (l.foldl (fun acc a => insertSorted le a acc) acc).length = acc.length + l.length by
    simpa using h []
  induction l with
  | nil => intro acc; simp
  | cons a l ih =>
    intro acc
    simp only [List.foldl_cons, ih, length_insertSorted, List.length_cons]
    omega

/-- JS `Map.set` grows the map by at most one entry. -/
theorem length_seenSet_le (seen : List (String × Suggestion)) (k : String) (v : Suggestion) :
    (seenSet seen k v).length ≤ seen.length + 1 := by
  induction seen with
  | nil => simp [seenSet]
  | cons p rest ih =>
    rcases p with ⟨k', v'⟩
    simp only [seenSet]
    split
    · simp
    · simpa using ih

/-- One deduplication step grows the seen map by at most one entry. -/
theorem length_dedupeStep_le (seen : List (String × Suggestion)) (s : Suggestion) :
    (dedupeStep seen s).length ≤ seen.length + 1 := by
  simp only [dedupeStep]
  split
  · simp
  · split
    · exact length_seenSet_le seen _ s
    · omega

/-- The deduplicator never returns more suggestions than it was given. -/
theorem length_dedup_le (l : List Suggestion) :
    (deduplicateSuggestions l).length ≤ l.length := by
  suffices h : ∀ seen : List (String × Suggestion),
      (l.foldl dedupeStep seen).length ≤ seen.length + l.length by
    simpa [deduplicateSuggestions] using h []
  induction l with
  | nil => intro seen; simp
  | cons s l ih =>
    intro seen
    calc ((s :: l).foldl dedupeStep seen).length
        = (l.foldl dedupeStep (dedupeStep seen s)).length := rfl
      _ ≤ (dedupeStep seen s).length + l.length := ih _
      _ ≤ seen.length + 1 + l.length := by
          have := length_dedupeStep_le seen s
          omega
      _ = seen.length + (s :: l).length := by simp; omega

/-- The gazetteer source emits at most 10 suggestions. -/
theorem length_static_le (q : String) : (getStaticSuggestions q).length ≤ 10 := by
  simp only [getStaticSuggestions]
  split
  · simp
  · rw [List.length_map]
    simp only [filterUSLocations]
    split
    · simp
    · simp [List.length_take]

/-- The history source emits at most 10 suggestions. -/
theorem length_db_le (q : String) (store : Except Unit (List Trip)) :
    (getDatabaseSuggestions q store).length ≤ 10 := by
  simp only [getDatabaseSuggestions]
  split
  · simp
  · split
    · simp
    · rw [List.length_map]
      simp [List.length_take]

/-- The generative source emits at most 8 suggestions. -/
theorem length_ai_le (q : String) (provider : AIOutcome) :
    (getAISuggestions q provider).length ≤ 8 := by
  cases provider <;>
    simp [getAISuggestions, aiConvert, List.length_take, List.enum_length]

/-- C1 counterexample: the three-source suggestions endpoint applies no
final truncation — for the query `"sa"` (10 gazetteer matches) plus one
distinct stored trip, the response carries 11 suggestions. -/
theorem C1_counterexample :
    10 < (suggestGET "sa" true (Except.ok [⟨"t1", "Aville", "Bville"⟩])
        (AIOutcome.providerError AIErr.other)).suggestions.length := by decide

/-- C1 amended: the three-source endpoint does not truncate its final
list; its length is bounded only by the per-source caps (10 static + 10
database + 8 AI = 28).  The legacy static-only search endpoint is the one
that truncates to the response limit of 10. -/
theorem C1_amended :
    (∀ (q : String) (rlAdmit : Bool) (store : Except Unit (List Trip))
        (provider : AIOutcome),
      (suggestGET q rlAdmit store provider).suggestions.length ≤ 28) ∧
    (∀ (q : String) (rlAdmit : Bool), (searchRouteGET q rlAdmit).suggestions.length ≤ 10) := by
  constructor
  · intro q rlAdmit store provider
    simp only [suggestGET]
    split
    · simp
    · split
      · rw [List.length_map]
        have := length_static_le (jsTrim q)
        omega
      · rw [List.length_map, length_jsSortBy]
        have h1 := length_dedup_le
          ((getStaticSuggestions (jsTrim q) ++
            (if decide (2 ≤ (jsTrim q).length) = true
             then getDatabaseSuggestions (jsTrim q) store else []) ++
            (if decide (2 ≤ (jsTrim q).length) = true
             then getAISuggestions (jsTrim q) provider else [])))
        have h2 := length_static_le (jsTrim q)
        have h3 : (if decide (2 ≤ (jsTrim q).length) = true
            then getDatabaseSuggestions (jsTrim q) store else []).length ≤ 10 := by
          split
          · exact length_db_le _ _
          · simp
        have h4 : (if decide (2 ≤ (jsTrim q).length) = true
            then getAISuggestions (jsTrim q) provider else []).length ≤ 8 := by
          split
          · exact length_ai_le _ _
          · simp
        simp only [List.length_append] at h1
        omega
  · intro q rlAdmit
    simp only [searchRouteGET]
    split
    · simp
    · split
      · simp
      · simp [List.length_take]


/-- `betterSug` as a proposition. -/
theorem betterSug_iff (s e : Suggestion) :
    betterSug s e = true ↔
      sourcePriority e.source < sourcePriority s.source ∨
      (sourcePriority s.source = sourcePriority e.source ∧
        e.relevanceScore < s.relevanceScore) := by
  simp [betterSug]

/-- "Does not beat" is transitive. -/
theorem notBetter_trans (x y z : Suggestion) (h1 : betterSug x y = false)
    (h2 : betterSug y z = false) : betterSug x z = false := by
  rw [Bool.eq_false_iff] at h1 h2 ⊢
  rw [Ne, betterSug_iff] at h1 h2 ⊢
  omega

/-- Nothing beats itself. -/
theorem betterSug_irrefl (x : Suggestion) : betterSug x x = false := by
  rw [Bool.eq_false_iff, Ne, betterSug_iff]
  omega

/-- The earlier candidate never beats the pick. -/
theorem betterSug_pickWin_left (a s : Suggestion) : betterSug a (pickWin a s) = false := by
  simp only [pickWin]
  split
  · rename_i h
    rw [Bool.eq_false_iff, Ne, betterSug_iff]
    rw [betterSug_iff] at h
    omega
  · exact betterSug_irrefl a

/-- The later candidate never beats the pick. -/
theorem betterSug_pickWin_right (a s : Suggestion) : betterSug s (pickWin a s) = false := by
  simp only [pickWin]
  split
  · exact betterSug_irrefl s
  · rename_i h
    exact Bool.of_not_eq_true h

/-- The winner fold from a seeded accumulator yields a candidate unbeaten
by the seed and by every group member. -/
theorem groupWinner_max (g : List Suggestion) : ∀ a w : Suggestion,
    groupWinner (some a) g = some w →
      betterSug a w = false ∧ ∀ t ∈ g, betterSug t w = false := by
  induction g with
  | nil =>
    intro a w h
    simp only [groupWinner, List.foldl_nil, Option.some.injEq] at h
    subst h
    exact ⟨betterSug_irrefl a, by simp⟩
  | cons s g ih =>
    intro a w h
    have h' : groupWinner (some (pickWin a s)) g = some w := h
    obtain ⟨hpick, hrest⟩ := ih (pickWin a s) w h'
    refine ⟨notBetter_trans a (pickWin a s) w (betterSug_pickWin_left a s) hpick, ?_⟩
    intro t ht
    rcases List.mem_cons.mp ht with rfl | ht'
    · exact notBetter_trans t (pickWin a t) w (betterSug_pickWin_right a t) hpick
    · exact hrest t ht'

/-- The winner fold from a seeded accumulator always yields a winner. -/
theorem groupWinner_isSome (g : List Suggestion) : ∀ a : Suggestion,
    (groupWinner (some a) g).isSome = true := by
  induction g with
  | nil => intro a; rfl
  | cons s g ih => intro a; exact ih (pickWin a s)

/-- Every member of a group fails to beat the group's winner. -/
theorem specWinner_max (g : List Suggestion) (w : Suggestion) (h : specWinner g = some w) :
    ∀ t ∈ g, betterSug t w = false := by
  cases g with
  | nil => simp [specWinner, groupWinner] at h
  | cons a g =>
    have h' : groupWinner (some a) g = some w := h
    obtain ⟨ha, hrest⟩ := groupWinner_max g a w h'
    intro t ht
    rcases List.mem_cons.mp ht with rfl | ht'
    · exact ha
    · exact hrest t ht'

/-- A non-empty group has a winner. -/
theorem specWinner_isSome (g : List Suggestion) (h : g ≠ []) :
    (specWinner g).isSome = true := by
  cases g with
  | nil => exact absurd rfl h
  | cons a g => exact groupWinner_isSome g a

/-! ### Association-list lemmas for the seen map -/

/-- Lookup across an append searches the left part first. -/
theorem lookup_append (k : String) (l1 l2 : List (String × Suggestion)) :
    List.lookup k (l1 ++ l2) =
      match List.lookup k l1 with
      | some v => some v
      | none => List.lookup k l2 := by
  induction l1 with
  | nil => simp [List.lookup]
  | cons p l ih =>
    rcases p with ⟨a, b⟩
    by_cases h : k = a
    · simp [List.lookup, h]
    · simp only [List.cons_append, List.lookup]
      rw [beq_false_of_ne h]
      exact ih

/-- Lookup is `none` exactly off the key set. -/
theorem lookup_eq_none_iff (k : String) (l : List (String × Suggestion)) :
    List.lookup k l = none ↔ k ∉ l.map Prod.fst := by
  induction l with
  | nil => simp [List.lookup]
  | cons p l ih =>
    rcases p with ⟨a, b⟩
    by_cases h : k = a
    · simp [List.lookup, h]
    · simp only [List.lookup]
      rw [beq_false_of_ne h]
      simp [ih, h]

/-- Overwriting an existing key changes exactly that key's binding. -/
theorem lookup_seenSet_of_some (seen : List (String × Suggestion)) (k' : String)
    (v e : Suggestion) (h : List.lookup k' seen = some e) (k : String) :
    List.lookup k (seenSet seen k' v) =
      if k = k' then some v else List.lookup k seen := by
  induction seen with
  | nil => simp [List.lookup] at h
  | cons p rest ih =>
    rcases p with ⟨a, b⟩
    simp only [seenSet]
    split
    · rename_i ha
      subst ha
      by_cases hk : k = a
      · simp [List.lookup, hk]
      · simp [List.lookup, beq_false_of_ne hk, hk]
    · rename_i ha
      have h' : List.lookup k' rest = some e := by
        simpa [List.lookup, beq_false_of_ne (Ne.symm ha)] using h
      by_cases hk : k = a
      · subst hk
        have hne : ¬ k = k' := fun hkk => ha (hkk ▸ rfl)
        simp [List.lookup, hne]
      · simp only [List.lookup, beq_false_of_ne hk]
        exact ih h'

/-- How one deduplication step changes the binding of each key: the
arriving suggestion folds into its own key's binding, all other keys are
untouched. -/
theorem lookup_dedupeStep (seen : List (String × Suggestion)) (s : Suggestion) (k : String) :
    List.lookup k (dedupeStep seen s) =
      if dedupKey s = k then stepWin (List.lookup k seen) s
      else List.lookup k seen := by
  cases h : List.lookup (dedupKey s) seen with
  | none =>
    simp only [dedupeStep, h]
    rw [lookup_append]
    by_cases hk : dedupKey s = k
    · subst hk
      rw [h]
      simp [List.lookup, stepWin]
    · have hone : List.lookup k [(dedupKey s, s)] = none := by
        simp [List.lookup, beq_false_of_ne (Ne.symm hk)]
      rw [if_neg hk]
      cases h2 : List.lookup k seen with
      | none => simpa [h2] using hone
      | some v => rfl
  | some e =>
    simp only [dedupeStep, h]
    by_cases hb : betterSug s e = true
    · rw [if_pos hb]
      by_cases hk : dedupKey s = k
      · subst hk
        rw [lookup_seenSet_of_some seen _ s e h, if_pos rfl, if_pos rfl, h]
        simp [stepWin, pickWin, hb]
      · rw [lookup_seenSet_of_some seen _ s e h, if_neg (fun hkk => hk hkk.symm), if_neg hk]
    · rw [if_neg hb]
      by_cases hk : dedupKey s = k
      · subst hk
        rw [if_pos rfl, h]
        simp [stepWin, pickWin, Bool.of_not_eq_true hb]
      · rw [if_neg hk]

/-- The binding of key `k` after folding the whole input equals the winner
fold over the key-`k` candidates, seeded with the prior binding. -/
theorem lookup_dedupFold (l : List Suggestion) :
    ∀ (seen : List (String × Suggestion)) (k : String),
      List.lookup k (l.foldl dedupeStep seen) =
        groupWinner (List.lookup k seen) (l.filter fun s => dedupKey s == k) := by
  induction l with
  | nil => intro seen k; rfl
  | cons s l ih =>
    intro seen k
    rw [List.foldl_cons, ih (dedupeStep seen s) k, lookup_dedupeStep]
    by_cases hk : dedupKey s = k
    · rw [if_pos hk, List.filter_cons_of_pos (by simpa using hk)]
      rfl
    · rw [if_neg hk, List.filter_cons_of_neg (by simpa using hk)]


/-- Every entry of the overwritten map is the new binding or an old entry. -/
theorem mem_seenSet (seen : List (String × Suggestion)) (k : String) (v : Suggestion) :
    ∀ p ∈ seenSet seen k v, p = (k, v) ∨ p ∈ seen := by
  induction seen with
  | nil => intro p hp; exact Or.inl (List.mem_singleton.mp hp)
  | cons q rest ih =>
    rcases q with ⟨a, b⟩
    intro p hp
    simp only [seenSet] at hp
    split at hp
    · rcases List.mem_cons.mp hp with rfl | hp'
      · exact Or.inl rfl
      · exact Or.inr (List.mem_cons_of_mem _ hp')
    · rcases List.mem_cons.mp hp with rfl | hp'
      · exact Or.inr (List.mem_cons_self _ _)
      · rcases ih p hp' with h | h
        · exact Or.inl h
        · exact Or.inr (List.mem_cons_of_mem _ h)

/-- Overwriting an existing key leaves the key list unchanged. -/
theorem map_fst_seenSet (seen : List (String × Suggestion)) (k : String) (v e : Suggestion)
    (h : List.lookup k seen = some e) :
    (seenSet seen k v).map Prod.fst = seen.map Prod.fst := by
  induction seen with
  | nil => simp [List.lookup] at h
  | cons q rest ih =>
    rcases q with ⟨a, b⟩
    simp only [seenSet]
    split
    · rename_i ha
      subst ha
      simp
    · rename_i ha
      have h' : List.lookup k rest = some e := by
        simpa [List.lookup, beq_false_of_ne (Ne.symm ha)] using h
      simp [ih h']

/-- One deduplication step preserves both well-formedness invariants of
the seen map: key/value consistency and key distinctness. -/
theorem wf_dedupeStep (seen : List (String × Suggestion)) (s : Suggestion)
    (h1 : KeysConsistent seen) (h2 : (seen.map Prod.fst).Nodup) :
    KeysConsistent (dedupeStep seen s) ∧ ((dedupeStep seen s).map Prod.fst).Nodup := by
  cases h : List.lookup (dedupKey s) seen with
  | none =>
    simp only [dedupeStep, h]
    constructor
    · intro p hp
      rcases List.mem_append.mp hp with hp' | hp'
      · exact h1 p hp'
      · rcases List.mem_singleton.mp hp' with rfl
        rfl
    · rw [List.map_append]
      rw [List.nodup_append]
      refine ⟨h2, List.nodup_singleton _, ?_⟩
      intro a ha hb
      simp only [List.map_cons, List.map_nil, List.mem_singleton] at hb
      subst hb
      exact (lookup_eq_none_iff _ _).mp h ha
  | some e =>
    simp only [dedupeStep, h]
    split
    · constructor
      · intro p hp
        rcases mem_seenSet seen (dedupKey s) s p hp with rfl | hp'
        · rfl
        · exact h1 p hp'
      · rw [map_fst_seenSet seen _ s e h]
        exact h2
    · exact ⟨h1, h2⟩

/-- The seen map built by the deduplicator is well-formed. -/
theorem wf_dedupFold (l : List Suggestion) :
    KeysConsistent (l.foldl dedupeStep []) ∧
      ((l.foldl dedupeStep []).map Prod.fst).Nodup := by
  suffices h : ∀ seen, KeysConsistent seen → (seen.map Prod.fst).Nodup →
      KeysConsistent (l.foldl dedupeStep seen) ∧
        ((l.foldl dedupeStep seen).map Prod.fst).Nodup by
    exact h [] (by intro p hp; simp at hp) (by simp)
  induction l with
  | nil => intro seen ha hb; exact ⟨ha, hb⟩
  | cons s l ih =>
    intro seen ha hb
    rw [List.foldl_cons]
    obtain ⟨ha', hb'⟩ := wf_dedupeStep seen s ha hb
    exact ih (dedupeStep seen s) ha' hb'

/-- In a well-formed seen map, the values whose identity key is `k` are
exactly the binding of `k`. -/
theorem filter_map_snd (seen : List (String × Suggestion)) (k : String)
    (h1 : KeysConsistent seen) (h2 : (seen.map Prod.fst).Nodup) :
    (seen.map Prod.snd).filter (fun s => dedupKey s == k) =
      (List.lookup k seen).toList := by
  induction seen with
  | nil => rfl
  | cons p rest ih =>
    rcases p with ⟨a, v⟩
    have hav : a = dedupKey v := h1 (a, v) (List.mem_cons_self _ _)
    have h1' : KeysConsistent rest := fun q hq => h1 q (List.mem_cons_of_mem _ hq)
    have h2' : (rest.map Prod.fst).Nodup := (List.nodup_cons.mp h2).2
    have hnotin : a ∉ rest.map Prod.fst := (List.nodup_cons.mp h2).1
    by_cases hk : k = a
    · rw [List.map_cons, List.filter_cons_of_pos (by simp [← hav, hk])]
      have hrest : (rest.map Prod.snd).filter (fun s => dedupKey s == k) = [] := by
        rw [List.filter_eq_nil_iff]
        intro x hx
        obtain ⟨q, hq, rfl⟩ := List.mem_map.mp hx
        have hq1 : q.1 = dedupKey q.2 := h1' q hq
        have hqin : q.1 ∈ rest.map Prod.fst := List.mem_map_of_mem Prod.fst hq
        simp only [beq_iff_eq]
        intro hcontra
        have hqa : q.1 = a := by rw [hq1, hcontra, hk]
        exact hnotin (hqa ▸ hqin)
      rw [hrest]
      simp [List.lookup, hk]
    · rw [List.map_cons,
        List.filter_cons_of_neg (by simp only [beq_iff_eq, ← hav]; exact fun h => hk h.symm)]
      rw [ih h1' h2']
      simp [List.lookup, beq_false_of_ne hk]

/-- C4: for every input list and identity key, the deduplicator keeps
exactly one candidate from the key's (non-empty) group — the one selected
by scanning the group in arrival order and keeping the strictly better
candidate under "higher source priority first, then strictly higher
relevance score", so first-seen wins all remaining ties.  In particular,
with equal keys and equal scores a static candidate displaces a database
one and a database one displaces an AI one, never conversely. -/
theorem C4_dedup_winner (l : List Suggestion) (k : String) :
    (deduplicateSuggestions l).filter (fun s => dedupKey s == k) =
      (specWinner (l.filter fun s => dedupKey s == k)).toList := by
  unfold deduplicateSuggestions specWinner
  rw [filter_map_snd _ k (wf_dedupFold l).1 (wf_dedupFold l).2, lookup_dedupFold]
  rfl

/-- A fold whose every step fixes the accumulator returns it unchanged. -/
theorem foldl_fixed_of_steps (f : β → α → β) (S : β) :
    ∀ l : List α, (∀ s ∈ l, f S s = S) → l.foldl f S = S := by
  intro l
  induction l with
  | nil => intro _; rfl
  | cons a l ih =>
    intro h
    rw [List.foldl_cons, h a (List.mem_cons_self a l)]
    exact ih fun s hs => h s (List.mem_cons_of_mem a hs)

/-- C7: deduplicating a list concatenated with itself gives the same
result as deduplicating it once — on the second pass every candidate meets
the already-stored winner of its own group, which it cannot strictly beat. -/
theorem C7_dedup_idem (l : List Suggestion) :
    deduplicateSuggestions (l ++ l) = deduplicateSuggestions l := by
  unfold deduplicateSuggestions
  rw [List.foldl_append]
  congr 1
  apply foldl_fixed_of_steps
  intro s hs
  have hl : List.lookup (dedupKey s) (l.foldl dedupeStep []) =
      specWinner (l.filter fun t => dedupKey t == dedupKey s) := by
    rw [lookup_dedupFold]
    rfl
  have hmem : s ∈ l.filter fun t => dedupKey t == dedupKey s := by
    simp [List.mem_filter, hs]
  obtain ⟨w, hw⟩ := Option.isSome_iff_exists.mp
    (specWinner_isSome _ (List.ne_nil_of_mem hmem))
  have hbw : betterSug s w = false := specWinner_max _ w hw s hmem
  simp only [dedupeStep, hl, hw, hbw]
  rfl
